import Mathlib

/-
Verification of the rtlamr receiver core (recv.go).

The development shallowly embeds the decode-pipeline loop of `Receiver.Run`
(the `looper` closure, recv.go:139-214), the stream-splitter goroutine
(recv.go:123-135), the WaitGroup join protocol (recv.go:137, 216-224), the
record-separator emission after `Encode` (recv.go:185-189), and parser
selection in `Receiver.NewReceiver` (recv.go:48-61).

External capabilities (a Parser's Decode/Parse steps and its IQ sample
window, the structured encoder, the sample source) are modelled at their
interface: a Block carries the packets the Parser produces from it and the
decoder's IQ byte window; the filter chain is a boolean predicate on
packets; error injection for fallible calls is explicit.
-/

/-- A decoded packet. The core only consults the meter identifier
(recv.go:196 `pkt.MeterID()`); the payload is opaque. -/
structure Packet where
  meterID : Nat
deriving DecidableEq

/-- `parse.LogMessage` as filled in at recv.go:174-178:
`Time` from `time.Now()`, `Offset` from `sampleFile.Seek(0, os.SEEK_CUR)`,
`Length` from `p.Cfg().BufferLength << 1`, `Message` the packet. -/
structure LogMessage where
  time : Nat
  offset : Nat
  length : Nat
  message : Packet
deriving DecidableEq

/-- The effect of one block on the shared sinks, in program order:
`encode m` is a call `encoder.Encode(msg)` (recv.go:180), `write bs` is a
call `sampleFile.Write(p.Dec().IQ)` (recv.go:203). -/
inductive Event where
  | encode (m : LogMessage)
  | write (bs : List Nat)
deriving DecidableEq

/-- The slice of `parse.Parser.Cfg()` the loop body reads. -/
structure Cfg where
  bufferLength : Nat
deriving DecidableEq

/-- The flags the loop body reads: `*single` and `*sampleFilename`. -/
structure Flags where
  single : Bool
  sampleFilename : String
deriving DecidableEq

/-- `os.DevNull`: the designated discard target compared against at
recv.go:202. -/
def osDevNull : String := "/dev/null"

/-- One sample block as seen through the Parser capability: `packets` is
`p.Parse(p.Dec().Decode(block))` and `iq` is the decoder's sample window
`p.Dec().IQ` after decoding this block (recv.go:167-169, 203). -/
structure Block where
  packets : List Packet
  iq : List Nat
deriving DecidableEq

/-- The mutable state a pipeline's loop body touches: the Completion Set
`meterID.UintMap`, the raw-capture file contents (its write position is its
length), the sequence of encoded log messages, and a clock supplying
`time.Now()`. -/
structure LoopState where
  comp : Finset Nat
  file : List Nat
  log : List LogMessage
  clock : Nat
deriving DecidableEq

/-- Result of the per-packet loop (recv.go:169-199): the sink events it
emitted, the Completion Set it leaves behind, and the `pktFound` flag. -/
structure LoopOut where
  events : List Event
  comp : Finset Nat
  pktFound : Bool
deriving DecidableEq

/-- The `Stopped` reasons of the pipeline state machine. -/
inductive StopReason where
  | interrupted
  | deadlineReached
  | completionSetEmpty
deriving DecidableEq

/-- Outcome of one loop iteration: continue looping, or return. -/
inductive StepRes where
  | cont (s : LoopState)
  | stop (s : LoopState) (r : StopReason)
deriving DecidableEq

/-- Outcome of running the loop over a finite prefix of the block stream:
either all provided blocks were consumed and the loop is still running, or
the loop returned. -/
inductive RunRes where
  | running (s : LoopState)
  | stopped (s : LoopState) (r : StopReason)
deriving DecidableEq

/-- The log messages carried by a list of sink events, in order. -/
def eventMessages : List Event → List LogMessage
  | [] => []
  | Event.encode m :: r => m :: eventMessages r
  | Event.write _ :: r => eventMessages r

/-- The raw bytes written to the capture file by a list of sink events. -/
def eventWrites : List Event → List Nat
  | [] => []
  | Event.encode _ :: r => eventWrites r
  | Event.write bs :: r => bs ++ eventWrites r

/-- `p.Cfg().BufferLength << 1` (recv.go:177). -/
def msgLenOf (cfg : Cfg) : Nat := Nat.shiftLeft cfg.bufferLength 1

/-- The per-packet loop of recv.go:169-199. Each packet is matched against
the filter chain; a match is wrapped into a LogMessage (offset read from the
current capture-file position) and encoded; in single-shot mode an empty
Completion Set breaks the loop, otherwise the packet's meter identifier is
deleted from the set. -/
def packetLoop (single : Bool) (fc : Packet → Bool) (msgLen : Nat)
    (file : List Nat) (clock : Nat) : List Packet → Finset Nat → LoopOut
  | [], comp => ⟨[], comp, false⟩
  | pkt :: rest, comp =>
    if fc pkt then
      let msg : LogMessage := ⟨clock, file.length, msgLen, pkt⟩
      if single then
        if comp = ∅ then
          ⟨[Event.encode msg], comp, true⟩
        else
          let r := packetLoop single fc msgLen file clock rest (comp.erase pkt.meterID)
          ⟨Event.encode msg :: r.events, r.comp, true⟩
      else
        let r := packetLoop single fc msgLen file clock rest comp
        ⟨Event.encode msg :: r.events, r.comp, true⟩
    else
      packetLoop single fc msgLen file clock rest comp

/-- The sink events one loop iteration emits, in program order: the
per-packet loop's encodes (recv.go:169-199) followed by the capture-file
write, when one happens (recv.go:201-207). -/
def blockEvents (fl : Flags) (fc : Packet → Bool) (cfg : Cfg) (b : Block)
    (s : LoopState) : List Event :=
  let r := packetLoop fl.single fc (msgLenOf cfg) s.file s.clock b.packets s.comp
  if r.pktFound then
    if fl.sampleFilename ≠ osDevNull then r.events ++ [Event.write b.iq]
    else r.events
  else r.events

/-- One successful iteration of the pipeline loop body (the `default:`
branch, recv.go:159-211, with every fallible call succeeding): run the
per-packet loop, then, if a packet was found, append the block's IQ window
to the capture file unless capture targets the discard device
(recv.go:201-207), and return with `CompletionSetEmpty` if single-shot mode
is on and the Completion Set is empty (recv.go:208-210). -/
def processBlock (fl : Flags) (fc : Packet → Bool) (cfg : Cfg) (b : Block)
    (s : LoopState) : StepRes :=
  let r := packetLoop fl.single fc (msgLenOf cfg) s.file s.clock b.packets s.comp
  let evs := blockEvents fl fc cfg b s
  let s' : LoopState :=
    { comp := r.comp
      file := s.file ++ eventWrites evs
      log := s.log ++ eventMessages evs
      clock := s.clock + 1 }
  if r.pktFound then
    if fl.single = true ∧ r.comp = ∅ then StepRes.stop s' StopReason.completionSetEmpty
    else StepRes.cont s'
  else StepRes.cont s'

/-- The pipeline loop (recv.go:151-213) run over a finite prefix of the
block stream, with no interrupt and no time limit pending, and every
fallible call succeeding. -/
def looperRun (fl : Flags) (fc : Packet → Bool) (cfg : Cfg) :
    List Block → LoopState → RunRes
  | [], s => RunRes.running s
  | b :: bs, s =>
    match processBlock fl fc cfg b s with
    | StepRes.cont s' => looperRun fl fc cfg bs s'
    | StepRes.stop s' r => RunRes.stopped s' r

/-- The loop's state at startup: the configured Completion Set, an empty
capture file, an empty log, clock zero. -/
def initState (comp : Finset Nat) : LoopState := ⟨comp, [], [], 0⟩

/-- The state carried by a step result. -/
def stepState : StepRes → LoopState
  | StepRes.cont s => s
  | StepRes.stop s _ => s

/-- The state carried by a run result. -/
def runState : RunRes → LoopState
  | RunRes.running s => s
  | RunRes.stopped s _ => s

/-- Whether a run result is a `Stopped` state. -/
def isStoppedRes : RunRes → Bool
  | RunRes.running _ => false
  | RunRes.stopped _ _ => true

/-- The log messages a step appended beyond the starting log. -/
def newLog (s : LoopState) (r : StepRes) : List LogMessage :=
  (stepState r).log.drop s.log.length

/-- The kinds of `log.Fatal` the loop body can raise: short/failed conduit
read (recv.go:162-163), `Encode` failure (recv.go:181-182), capture-write
failure (recv.go:204-205). `log.Fatal` terminates the whole process. -/
inductive FatalKind where
  | readSamples (e : String)
  | encodeMessage (e : String)
  | writeSamples (e : String)
deriving DecidableEq

/-- Error injection for one loop iteration: the result of
`io.ReadFull(in, block)` (`some e` covers both read errors and short reads,
which `io.ReadFull` reports as an error), the result of the i-th
`encoder.Encode` call of this iteration, and the result of
`sampleFile.Write`. -/
structure ErrOracle where
  readErr : Option String
  encodeErr : Nat → Option String
  writeErr : Option String

/-- Outcome of one loop iteration with fallible calls: process-fatal error,
continue, or return. -/
inductive IterRes where
  | fatal (k : FatalKind)
  | cont (s : LoopState)
  | stop (s : LoopState) (r : StopReason)
deriving DecidableEq

/-- The per-packet loop of recv.go:169-199 with `Encode` failure made
explicit: the i-th `Encode` call consults `enc i`; an error aborts the loop
(the process dies at recv.go:182). -/
def packetLoopE (single : Bool) (fc : Packet → Bool) (msgLen : Nat)
    (file : List Nat) (clock : Nat) (enc : Nat → Option String) :
    List Packet → Finset Nat → Nat → Except String LoopOut
  | [], comp, _ => Except.ok ⟨[], comp, false⟩
  | pkt :: rest, comp, i =>
    if fc pkt then
      match enc i with
      | some e => Except.error e
      | none =>
        let msg : LogMessage := ⟨clock, file.length, msgLen, pkt⟩
        if single then
          if comp = ∅ then
            Except.ok ⟨[Event.encode msg], comp, true⟩
          else
            match packetLoopE single fc msgLen file clock enc rest (comp.erase pkt.meterID) (i + 1) with
            | Except.error e => Except.error e
            | Except.ok r => Except.ok ⟨Event.encode msg :: r.events, r.comp, true⟩
        else
          match packetLoopE single fc msgLen file clock enc rest comp (i + 1) with
          | Except.error e => Except.error e
          | Except.ok r => Except.ok ⟨Event.encode msg :: r.events, r.comp, true⟩
    else
      packetLoopE single fc msgLen file clock enc rest comp i

/-- One iteration of the pipeline loop body (the `default:` branch,
recv.go:159-211) with the three fallible calls explicit. A failed or short
`io.ReadFull` is `log.Fatal` (recv.go:162-163); an `Encode` error is
`log.Fatal` (recv.go:181-182); a capture-write error is `log.Fatal`
(recv.go:204-205). -/
def processBlockE (fl : Flags) (fc : Packet → Bool) (cfg : Cfg)
    (o : ErrOracle) (b : Block) (s : LoopState) : IterRes :=
  match o.readErr with
  | some e => IterRes.fatal (FatalKind.readSamples e)
  | none =>
    match packetLoopE fl.single fc (msgLenOf cfg) s.file s.clock o.encodeErr b.packets s.comp 0 with
    | Except.error e => IterRes.fatal (FatalKind.encodeMessage e)
    | Except.ok r =>
      if r.pktFound then
        if fl.sampleFilename ≠ osDevNull then
          match o.writeErr with
          | some e => IterRes.fatal (FatalKind.writeSamples e)
          | none =>
            let s' : LoopState :=
              { comp := r.comp
                file := s.file ++ b.iq
                log := s.log ++ eventMessages r.events
                clock := s.clock + 1 }
            if fl.single = true ∧ r.comp = ∅ then IterRes.stop s' StopReason.completionSetEmpty
            else IterRes.cont s'
        else
          let s' : LoopState :=
            { comp := r.comp
              file := s.file
              log := s.log ++ eventMessages r.events
              clock := s.clock + 1 }
          if fl.single = true ∧ r.comp = ∅ then IterRes.stop s' StopReason.completionSetEmpty
          else IterRes.cont s'
      else
        IterRes.cont
          { comp := r.comp
            file := s.file
            log := s.log ++ eventMessages r.events
            clock := s.clock + 1 }

/-- A read delivered by the sample source to the splitter goroutine: a
chunk of `n` bytes, or an error from `rcvr.Read` (recv.go:126-127). -/
inductive SrcEvent where
  | chunk (bs : List Nat)
  | readErr (e : String)
deriving DecidableEq

/-- An operation the splitter performs on the two conduits: a write to the
primary pipe `out`, a write to the secondary pipe `out2`, or a close of
either pipe. -/
inductive ConduitEvent where
  | primaryWrite (bs : List Nat)
  | secondaryWrite (bs : List Nat)
  | primaryClose
  | secondaryClose
deriving DecidableEq

/-- The splitter goroutine (recv.go:123-135) over a finite prefix of source
reads: each successful read is forwarded to `out`, and to `out2` when a
second parser is active; on a read error the goroutine returns — performing
no further conduit operation. -/
def splitter (dual : Bool) : List SrcEvent → List ConduitEvent
  | [] => []
  | SrcEvent.chunk bs :: rest =>
    (ConduitEvent.primaryWrite bs ::
      (if dual then [ConduitEvent.secondaryWrite bs] else [])) ++ splitter dual rest
  | SrcEvent.readErr _ :: _ => []

/-- The close operations among a list of conduit events. -/
def closeEvents (evs : List ConduitEvent) : List ConduitEvent :=
  evs.filter fun e =>
    match e with
    | ConduitEvent.primaryClose => true
    | ConduitEvent.secondaryClose => true
    | _ => false

/-- Total bytes written to the primary conduit. -/
def primaryBytes : List ConduitEvent → Nat
  | [] => 0
  | ConduitEvent.primaryWrite bs :: r => bs.length + primaryBytes r
  | _ :: r => primaryBytes r

/-- Whether the primary conduit was closed. -/
def primaryClosed (evs : List ConduitEvent) : Bool :=
  evs.contains ConduitEvent.primaryClose

/-- Whether a pipeline blocked in `io.ReadFull` needing `need` bytes from
the primary conduit is ever released: an `io.Pipe` reader returns only once
enough bytes have been written or the writer side is closed. -/
def readerReleased (need : Nat) (evs : List ConduitEvent) : Bool :=
  decide (need ≤ primaryBytes evs) || primaryClosed evs

/-- An operation on the `sync.WaitGroup` of `Receiver.Run`. -/
inductive WgOp where
  | add
  | done
deriving DecidableEq

/-- The WaitGroup operations the `looper` closure (recv.go:139-214)
performs from entry through return: it contains no reference to the
WaitGroup, so none. -/
def looperWgOps : List WgOp := []

/-- Every WaitGroup operation performed during a run of `Receiver.Run` in
which all spawned pipeline loops have returned: `wg.Add(1)` before spawning
each pipeline (recv.go:216, 219), plus whatever each spawned `looper`
performed before returning. -/
def runWgOps (dual : Bool) : List WgOp :=
  WgOp.add :: (if dual then [WgOp.add] else []) ++
    looperWgOps ++ (if dual then looperWgOps else [])

/-- The WaitGroup counter after a list of operations. -/
def wgCount : List WgOp → Int
  | [] => 0
  | WgOp.add :: r => 1 + wgCount r
  | WgOp.done :: r => wgCount r - 1

/-- `wg.Wait()` (recv.go:223) unblocks exactly when the counter is zero. -/
def wgWaitUnblocks (ops : List WgOp) : Bool := wgCount ops == 0

/-- The structured-encoder formats the program can be configured with.
Modelled from the spec: the encoder set is constructed outside this file's
source; the core only inspects the value it is handed. -/
inductive EncoderKind where
  | xml
  | json
  | csv
  | gob
deriving DecidableEq

/-- A structured encoder. `kind` is the concrete dynamic type; the field
`nativelyDelimits` is modelled from the spec: the capability "this format
natively delimits records", which §6 says the core should query. -/
structure Encoder where
  kind : EncoderKind
  nativelyDelimits : Bool
deriving DecidableEq

/-- The record-separator decision the core makes after each `Encode` call
(recv.go:185-189): a newline is printed exactly when the type assertion
`encoder.(*xml.Encoder)` succeeds. -/
def separatorAfterEncode (e : Encoder) : Bool :=
  match e.kind with
  | EncoderKind.xml => true
  | _ => false

/-- The record-separator decision as the spec words it: emit exactly when
the encoder's format does not natively delimit records, read off the
capability. -/
def separatorPerSpec (e : Encoder) : Bool := !e.nativelyDelimits

/-- The parser variants `Receiver.NewReceiver` can select. -/
inductive ParserKind where
  | scm
  | idm
  | r900
deriving DecidableEq

/-- The parser wiring produced by `Receiver.NewReceiver`: the primary
parser `p` and the optional secondary parser `q` (nil unless dual-protocol
mode). -/
structure ReceiverCfg where
  p : ParserKind
  q : Option ParserKind
deriving DecidableEq

/-- `strings.ToLower`, applied to the message-type flag at recv.go:49,
written structurally over the character list so it evaluates by kernel
reduction. -/
def lowerString (s : String) : String := String.mk (s.data.map Char.toLower)

/-- `Receiver.NewReceiver`'s message-type switch (recv.go:48-61):
lower-cases the flag, selects the parser(s); an unrecognized value is
`log.Fatalf` (process exits before any pipeline starts), modelled as
`none`. -/
def newReceiver (msgType : String) : Option ReceiverCfg :=
  match lowerString msgType with
  | "scm" => some ⟨ParserKind.scm, none⟩
  | "idm" => some ⟨ParserKind.idm, none⟩
  | "scm+idm" => some ⟨ParserKind.idm, some ParserKind.scm⟩
  | "r900" => some ⟨ParserKind.r900, none⟩
  | _ => none

/-- How many pipeline tasks `Receiver.Run` spawns (recv.go:216-221): one
for `p`, and one more exactly when `q` is non-nil. -/
def pipelinesSpawned (r : ReceiverCfg) : Nat :=
  1 + if r.q.isSome then 1 else 0

/-- The chunks the splitter writes to the secondary conduit
(recv.go:131-133): every chunk when `q` is non-nil, none otherwise. -/
def secondaryConduitWrites (r : ReceiverCfg) (chunks : List (List Nat)) :
    List (List Nat) :=
  if r.q.isSome then chunks else []

/-- Every message the per-packet loop encodes carries the clock as its
time, the current capture-file position as its offset, the configured
message length, and a packet of the block that passed the filter chain. -/
theorem packetLoop_messages (single : Bool) (fc : Packet → Bool) (msgLen : Nat)
    (file : List Nat) (clock : Nat) :
    ∀ (pkts : List Packet) (comp : Finset Nat) (m : LogMessage),
      m ∈ eventMessages (packetLoop single fc msgLen file clock pkts comp).events →
      m.time = clock ∧ m.offset = file.length ∧ m.length = msgLen ∧
        m.message ∈ pkts ∧ fc m.message = true := by
  intro pkts
  induction pkts with
  | nil =>
    intro comp m h
    simp [packetLoop, eventMessages] at h
  | cons pkt rest ih =>
    intro comp m h
    by_cases hfc : fc pkt
    · cases single with
      | false =>
        simp only [packetLoop, hfc, if_true, Bool.false_eq_true, if_false,
          eventMessages, List.mem_cons] at h
        rcases h with h | h
        · subst h; simp [hfc]
        · rcases ih _ m h with ⟨h1, h2, h3, h4, h5⟩
          exact ⟨h1, h2, h3, List.mem_cons_of_mem _ h4, h5⟩
      | true =>
        by_cases hc : comp = ∅
        · simp [packetLoop, hfc, hc, eventMessages] at h
          subst h
          simp [hfc]
        · simp only [packetLoop, hfc, if_true, if_neg hc] at h
          simp only [eventMessages, List.mem_cons] at h
          rcases h with h | h
          · subst h; simp [hfc]
          · rcases ih _ m h with ⟨h1, h2, h3, h4, h5⟩
            exact ⟨h1, h2, h3, List.mem_cons_of_mem _ h4, h5⟩
    · simp only [packetLoop, hfc, if_false, Bool.false_eq_true] at h
      rcases ih _ m h with ⟨h1, h2, h3, h4, h5⟩
      exact ⟨h1, h2, h3, List.mem_cons_of_mem _ h4, h5⟩

/-- The per-packet loop emits only `encode` events: its event list is the
encodes of its messages, in order. -/
theorem packetLoop_events_encodes (single : Bool) (fc : Packet → Bool)
    (msgLen : Nat) (file : List Nat) (clock : Nat) :
    ∀ (pkts : List Packet) (comp : Finset Nat),
      (packetLoop single fc msgLen file clock pkts comp).events =
        (eventMessages (packetLoop single fc msgLen file clock pkts comp).events).map
          Event.encode := by
  intro pkts
  induction pkts with
  | nil => intro comp; simp [packetLoop, eventMessages]
  | cons pkt rest ih =>
    intro comp
    by_cases hfc : fc pkt
    · cases single with
      | false =>
        simp only [packetLoop, hfc, if_true, Bool.false_eq_true, if_false,
          eventMessages, List.map_cons]
        exact congrArg _ (ih comp)
      | true =>
        by_cases hc : comp = ∅
        · simp [packetLoop, hfc, hc, eventMessages]
        · simp only [packetLoop, hfc, if_true, if_neg hc, eventMessages,
            List.map_cons]
          exact congrArg _ (ih _)
    · simp only [packetLoop, hfc, if_false, Bool.false_eq_true]
      exact ih comp

/-- The per-packet loop performs no capture-file write. -/
theorem packetLoop_no_writes (single : Bool) (fc : Packet → Bool)
    (msgLen : Nat) (file : List Nat) (clock : Nat) :
    ∀ (pkts : List Packet) (comp : Finset Nat),
      eventWrites (packetLoop single fc msgLen file clock pkts comp).events = [] := by
  intro pkts
  induction pkts with
  | nil => intro comp; simp [packetLoop, eventWrites]
  | cons pkt rest ih =>
    intro comp
    by_cases hfc : fc pkt
    · cases single with
      | false =>
        simp only [packetLoop, hfc, if_true, Bool.false_eq_true, if_false,
          eventWrites]
        exact ih comp
      | true =>
        by_cases hc : comp = ∅
        · simp [packetLoop, hfc, hc, eventWrites]
        · simp only [packetLoop, hfc, if_true, if_neg hc, eventWrites]
          exact ih _
    · simp only [packetLoop, hfc, if_false, Bool.false_eq_true]
      exact ih comp

/-- When no packet was found, the per-packet loop left the Completion Set
untouched and emitted nothing. -/
theorem packetLoop_not_found (single : Bool) (fc : Packet → Bool)
    (msgLen : Nat) (file : List Nat) (clock : Nat) :
    ∀ (pkts : List Packet) (comp : Finset Nat),
      (packetLoop single fc msgLen file clock pkts comp).pktFound = false →
      (packetLoop single fc msgLen file clock pkts comp).comp = comp ∧
        (packetLoop single fc msgLen file clock pkts comp).events = [] := by
  intro pkts
  induction pkts with
  | nil => intro comp _; simp [packetLoop]
  | cons pkt rest ih =>
    intro comp h
    by_cases hfc : fc pkt
    · exfalso
      cases single with
      | false =>
        simp [packetLoop, hfc] at h
      | true =>
        by_cases hc : comp = ∅
        · simp [packetLoop, hfc, hc] at h
        · simp [packetLoop, hfc, hc] at h
    · simp only [packetLoop, hfc, if_false, Bool.false_eq_true] at h ⊢
      exact ih comp h

/-- `pktFound` is set exactly when some packet of the block passes the
filter chain. -/
theorem packetLoop_found_iff (single : Bool) (fc : Packet → Bool)
    (msgLen : Nat) (file : List Nat) (clock : Nat) :
    ∀ (pkts : List Packet) (comp : Finset Nat),
      (packetLoop single fc msgLen file clock pkts comp).pktFound = true ↔
        ∃ pkt ∈ pkts, fc pkt = true := by
  intro pkts
  induction pkts with
  | nil => intro comp; simp [packetLoop]
  | cons pkt rest ih =>
    intro comp
    by_cases hfc : fc pkt
    · constructor
      · intro _; exact ⟨pkt, List.mem_cons_self _ _, hfc⟩
      · intro _
        cases single with
        | false => simp [packetLoop, hfc]
        | true =>
          by_cases hc : comp = ∅
          · simp [packetLoop, hfc, hc]
          · simp [packetLoop, hfc, hc]
    · simp only [packetLoop, hfc, if_false, Bool.false_eq_true]
      rw [ih comp]
      constructor
      · rintro ⟨q, hq, hfq⟩
        exact ⟨q, List.mem_cons_of_mem _ hq, hfq⟩
      · rintro ⟨q, hq, hfq⟩
        rcases List.mem_cons.mp hq with rfl | hq
        · exact absurd hfq (by simp [hfc])
        · exact ⟨q, hq, hfq⟩

/-- In single-shot mode the Completion Set the loop leaves behind is the
starting set minus the meter identifiers of the messages it logged. -/
theorem packetLoop_comp_single (fc : Packet → Bool) (msgLen : Nat)
    (file : List Nat) (clock : Nat) :
    ∀ (pkts : List Packet) (comp : Finset Nat),
      (packetLoop true fc msgLen file clock pkts comp).comp =
        comp \
          ((eventMessages (packetLoop true fc msgLen file clock pkts comp).events).map
            (fun m => m.message.meterID)).toFinset := by
  intro pkts
  induction pkts with
  | nil => intro comp; simp [packetLoop, eventMessages]
  | cons pkt rest ih =>
    intro comp
    by_cases hfc : fc pkt
    · by_cases hc : comp = ∅
      · simp [packetLoop, hfc, hc, eventMessages]
      · simp only [packetLoop, hfc, if_true, if_neg hc, eventMessages,
          List.map_cons, List.toFinset_cons]
        rw [ih (comp.erase pkt.meterID)]
        ext a
        simp [Finset.mem_sdiff, Finset.mem_erase, Finset.mem_insert]
        tauto
    · simp only [packetLoop, hfc, if_false, Bool.false_eq_true]
      exact ih comp

/-- `eventMessages` distributes over append. -/
theorem eventMessages_append :
    ∀ (l1 l2 : List Event), eventMessages (l1 ++ l2) = eventMessages l1 ++ eventMessages l2 := by
  intro l1
  induction l1 with
  | nil => intro l2; simp [eventMessages]
  | cons e r ih =>
    intro l2
    cases e with
    | encode m => simp [eventMessages, ih]
    | write bs => simp [eventMessages, ih]

/-- `eventWrites` distributes over append. -/
theorem eventWrites_append :
    ∀ (l1 l2 : List Event), eventWrites (l1 ++ l2) = eventWrites l1 ++ eventWrites l2 := by
  intro l1
  induction l1 with
  | nil => intro l2; simp [eventWrites]
  | cons e r ih =>
    intro l2
    cases e with
    | encode m => simp [eventWrites, ih]
    | write bs => simp [eventWrites, ih]

/-- One loop iteration, in closed form: the new state appends the logged
messages to the log, appends the block's IQ window to the capture file
exactly when a packet was found and capture is not discarded, carries the
per-packet loop's Completion Set, and the iteration returns exactly when a
packet was found, single-shot mode is on, and the Completion Set is now
empty. -/
theorem processBlock_eq (fl : Flags) (fc : Packet → Bool) (cfg : Cfg)
    (b : Block) (s : LoopState) :
    processBlock fl fc cfg b s =
      (if (packetLoop fl.single fc (msgLenOf cfg) s.file s.clock b.packets s.comp).pktFound = true ∧
          fl.single = true ∧
          (packetLoop fl.single fc (msgLenOf cfg) s.file s.clock b.packets s.comp).comp = ∅
       then
        StepRes.stop
          { comp := (packetLoop fl.single fc (msgLenOf cfg) s.file s.clock b.packets s.comp).comp
            file := s.file ++
              (if (packetLoop fl.single fc (msgLenOf cfg) s.file s.clock b.packets s.comp).pktFound = true ∧
                  fl.sampleFilename ≠ osDevNull then b.iq else [])
            log := s.log ++
              eventMessages (packetLoop fl.single fc (msgLenOf cfg) s.file s.clock b.packets s.comp).events
            clock := s.clock + 1 }
          StopReason.completionSetEmpty
       else
        StepRes.cont
          { comp := (packetLoop fl.single fc (msgLenOf cfg) s.file s.clock b.packets s.comp).comp
            file := s.file ++
              (if (packetLoop fl.single fc (msgLenOf cfg) s.file s.clock b.packets s.comp).pktFound = true ∧
                  fl.sampleFilename ≠ osDevNull then b.iq else [])
            log := s.log ++
              eventMessages (packetLoop fl.single fc (msgLenOf cfg) s.file s.clock b.packets s.comp).events
            clock := s.clock + 1 }) := by
  obtain ⟨sgl, fn⟩ := fl
  simp only [processBlock, blockEvents]
  generalize hR : packetLoop (Flags.mk sgl fn).single fc (msgLenOf cfg) s.file s.clock b.packets s.comp = R
  have hnw : eventWrites R.events = [] := by
    rw [← hR]
    exact packetLoop_no_writes _ _ _ _ _ _ _
  obtain ⟨evs, comp', found⟩ := R
  simp only at hnw
  cases found <;> cases sgl <;> by_cases hw : fn = osDevNull <;> by_cases hc : comp' = ∅ <;>
    simp [hw, hc, hnw, eventMessages_append, eventWrites_append, eventMessages, eventWrites]

/-- Unfolding of the loop on a block stream. -/
theorem looperRun_cons (fl : Flags) (fc : Packet → Bool) (cfg : Cfg)
    (b : Block) (bs : List Block) (s : LoopState) :
    looperRun fl fc cfg (b :: bs) s =
      match processBlock fl fc cfg b s with
      | StepRes.cont s' => looperRun fl fc cfg bs s'
      | StepRes.stop s' r => RunRes.stopped s' r := rfl

/-- The state after one iteration, regardless of whether it returned. -/
theorem stepState_processBlock (fl : Flags) (fc : Packet → Bool) (cfg : Cfg)
    (b : Block) (s : LoopState) :
    stepState (processBlock fl fc cfg b s) =
      { comp := (packetLoop fl.single fc (msgLenOf cfg) s.file s.clock b.packets s.comp).comp
        file := s.file ++
          (if (packetLoop fl.single fc (msgLenOf cfg) s.file s.clock b.packets s.comp).pktFound = true ∧
              fl.sampleFilename ≠ osDevNull then b.iq else [])
        log := s.log ++
          eventMessages (packetLoop fl.single fc (msgLenOf cfg) s.file s.clock b.packets s.comp).events
        clock := s.clock + 1 } := by
  rw [processBlock_eq]
  split <;> rfl

/-- The only way an iteration returns is `Stopped(CompletionSetEmpty)`. -/
theorem processBlock_stop_reason (fl : Flags) (fc : Packet → Bool) (cfg : Cfg)
    (b : Block) (s s' : LoopState) (r : StopReason) :
    processBlock fl fc cfg b s = StepRes.stop s' r → r = StopReason.completionSetEmpty := by
  rw [processBlock_eq]
  intro h
  split at h
  · injection h with h1 h2
    exact h2.symm
  · exact StepRes.noConfusion h

/-- The only way the loop returns (absent interrupt, deadline and fatal
errors) is `Stopped(CompletionSetEmpty)`. -/
theorem looperRun_stop_reason (fl : Flags) (fc : Packet → Bool) (cfg : Cfg) :
    ∀ (bs : List Block) (s sf : LoopState) (r : StopReason),
      looperRun fl fc cfg bs s = RunRes.stopped sf r → r = StopReason.completionSetEmpty := by
  intro bs
  induction bs with
  | nil =>
    intro s sf r h
    simp [looperRun] at h
  | cons b bs ih =>
    intro s sf r h
    rw [looperRun_cons] at h
    cases hpb : processBlock fl fc cfg b s with
    | cont s' =>
      rw [hpb] at h
      exact ih s' sf r h
    | stop s' r0 =>
      rw [hpb] at h
      injection h with h1 h2
      rw [← h2]
      exact processBlock_stop_reason fl fc cfg b s s' r0 hpb

/-- In single-shot mode, the loop's final Completion Set is the starting
set minus the meter identifiers of the messages the run appended to the
log. -/
theorem looperRun_log_comp_single (fl : Flags) (fc : Packet → Bool) (cfg : Cfg)
    (hs : fl.single = true) :
    ∀ (bs : List Block) (s : LoopState), ∃ newMsgs : List LogMessage,
      (runState (looperRun fl fc cfg bs s)).log = s.log ++ newMsgs ∧
      (runState (looperRun fl fc cfg bs s)).comp =
        s.comp \ (newMsgs.map (fun m => m.message.meterID)).toFinset := by
  intro bs
  induction bs with
  | nil =>
    intro s
    exact ⟨[], by simp [looperRun, runState]⟩
  | cons b bs ih =>
    intro s
    rw [looperRun_cons]
    cases hpb : processBlock fl fc cfg b s with
    | stop s' r0 =>
      have hst : s' =
          { comp := (packetLoop fl.single fc (msgLenOf cfg) s.file s.clock b.packets s.comp).comp
            file := s.file ++
              (if (packetLoop fl.single fc (msgLenOf cfg) s.file s.clock b.packets s.comp).pktFound = true ∧
                  fl.sampleFilename ≠ osDevNull then b.iq else [])
            log := s.log ++
              eventMessages (packetLoop fl.single fc (msgLenOf cfg) s.file s.clock b.packets s.comp).events
            clock := s.clock + 1 } := by
        rw [← stepState_processBlock fl fc cfg b s, hpb]
        rfl
      refine ⟨eventMessages (packetLoop fl.single fc (msgLenOf cfg) s.file s.clock b.packets s.comp).events, ?_, ?_⟩
      · simp [runState, hst]
      · simp only [runState, hst]
        rw [hs]
        exact packetLoop_comp_single fc (msgLenOf cfg) s.file s.clock b.packets s.comp
    | cont s' =>
      have hst : s' =
          { comp := (packetLoop fl.single fc (msgLenOf cfg) s.file s.clock b.packets s.comp).comp
            file := s.file ++
              (if (packetLoop fl.single fc (msgLenOf cfg) s.file s.clock b.packets s.comp).pktFound = true ∧
                  fl.sampleFilename ≠ osDevNull then b.iq else [])
            log := s.log ++
              eventMessages (packetLoop fl.single fc (msgLenOf cfg) s.file s.clock b.packets s.comp).events
            clock := s.clock + 1 } := by
        rw [← stepState_processBlock fl fc cfg b s, hpb]
        rfl
      rcases ih s' with ⟨ms2, hlog2, hcomp2⟩
      refine ⟨eventMessages (packetLoop fl.single fc (msgLenOf cfg) s.file s.clock b.packets s.comp).events ++ ms2, ?_, ?_⟩
      · rw [hlog2, hst]
        simp [List.append_assoc]
      · rw [hcomp2, hst]
        simp only
        have hcomp1 : (packetLoop fl.single fc (msgLenOf cfg) s.file s.clock b.packets s.comp).comp =
            s.comp \
              ((eventMessages (packetLoop fl.single fc (msgLenOf cfg) s.file s.clock b.packets s.comp).events).map
                (fun m => m.message.meterID)).toFinset := by
          rw [hs]
          exact packetLoop_comp_single fc (msgLenOf cfg) s.file s.clock b.packets s.comp
        rw [hcomp1]
        ext a
        simp [Finset.mem_sdiff, List.mem_append]
        tauto

/-- In single-shot mode a nonempty Completion Set stays nonempty as long as
the loop keeps running: an iteration that empties the set returns. -/
theorem looperRun_running_comp_ne (fl : Flags) (fc : Packet → Bool) (cfg : Cfg)
    (hs : fl.single = true) :
    ∀ (bs : List Block) (s sf : LoopState),
      s.comp ≠ ∅ → looperRun fl fc cfg bs s = RunRes.running sf → sf.comp ≠ ∅ := by
  intro bs
  induction bs with
  | nil =>
    intro s sf hne h
    simp only [looperRun] at h
    injection h with h1
    rw [← h1]
    exact hne
  | cons b bs ih =>
    intro s sf hne h
    rw [looperRun_cons] at h
    cases hpb : processBlock fl fc cfg b s with
    | stop s' r0 =>
      rw [hpb] at h
      exact RunRes.noConfusion h
    | cont s' =>
      rw [hpb] at h
      refine ih s' sf ?_ h
      rw [processBlock_eq] at hpb
      split at hpb
      · exact StepRes.noConfusion hpb
      · rename_i hcond
        injection hpb with h1
        rw [← h1]
        simp only
        by_cases hf : (packetLoop fl.single fc (msgLenOf cfg) s.file s.clock b.packets s.comp).pktFound = true
        · intro hc
          exact hcond ⟨hf, hs, hc⟩
        · have hnf : (packetLoop fl.single fc (msgLenOf cfg) s.file s.clock b.packets s.comp).pktFound = false := by
            cases hb : (packetLoop fl.single fc (msgLenOf cfg) s.file s.clock b.packets s.comp).pktFound
            · rfl
            · exact absurd hb hf
          rw [(packetLoop_not_found fl.single fc (msgLenOf cfg) s.file s.clock b.packets s.comp hnf).1]
          exact hne

/-- C1 (amended): in single-shot mode, for a Completion Set initially
`{A, B}`, once the pipeline's log contains a packet for A and a packet for
B (in either order, across any blocks), the pipeline stops with reason
`CompletionSetEmpty`. If the Completion Set starts empty, single-shot mode
makes the pipeline return — with reason `CompletionSetEmpty` — at the first
block from which any packet is accepted, and keeps looping (log, capture
file and set unchanged) on blocks with no accepted packet. -/
theorem C1_single_shot_amended :
    (∀ (fl : Flags) (fc : Packet → Bool) (cfg : Cfg) (bs : List Block) (A B : Nat),
      fl.single = true →
      (∃ m ∈ (runState (looperRun fl fc cfg bs (initState {A, B}))).log, m.message.meterID = A) →
      (∃ m ∈ (runState (looperRun fl fc cfg bs (initState {A, B}))).log, m.message.meterID = B) →
      ∃ sf, looperRun fl fc cfg bs (initState {A, B}) =
        RunRes.stopped sf StopReason.completionSetEmpty) ∧
    (∀ (fl : Flags) (fc : Packet → Bool) (cfg : Cfg) (b : Block) (s : LoopState),
      fl.single = true → s.comp = ∅ →
      ((∃ pkt ∈ b.packets, fc pkt = true) →
        ∃ sf, processBlock fl fc cfg b s = StepRes.stop sf StopReason.completionSetEmpty) ∧
      ((∀ pkt ∈ b.packets, fc pkt = false) →
        ∃ s', processBlock fl fc cfg b s = StepRes.cont s' ∧
          s'.log = s.log ∧ s'.file = s.file ∧ s'.comp = ∅)) := by
  constructor
  · intro fl fc cfg bs A B hs hA hB
    cases hres : looperRun fl fc cfg bs (initState {A, B}) with
    | running sf =>
      exfalso
      rcases looperRun_log_comp_single fl fc cfg hs bs (initState {A, B}) with ⟨newMsgs, hlog, hcomp⟩
      rw [hres] at hlog hcomp
      simp only [runState, initState] at hlog hcomp
      rw [hres] at hA hB
      simp only [runState] at hA hB
      have hcompne : sf.comp ≠ ∅ := by
        refine looperRun_running_comp_ne fl fc cfg hs bs (initState {A, B}) sf ?_ hres
        simp [initState]
      apply hcompne
      rw [hcomp]
      ext a
      simp only [Finset.mem_sdiff, Finset.mem_insert, Finset.mem_singleton,
        List.mem_toFinset, List.mem_map, Finset.not_mem_empty, iff_false]
      rintro ⟨ha, hnot⟩
      rcases ha with rfl | rfl
      · rcases hA with ⟨m, hm, hid⟩
        rw [hlog] at hm
        exact hnot ⟨m, hm, hid⟩
      · rcases hB with ⟨m, hm, hid⟩
        rw [hlog] at hm
        exact hnot ⟨m, hm, hid⟩
    | stopped sf r =>
      have hr := looperRun_stop_reason fl fc cfg bs (initState {A, B}) sf r hres
      subst hr
      exact ⟨sf, rfl⟩
  · intro fl fc cfg b s hs hc
    constructor
    · intro hacc
      have hf : (packetLoop fl.single fc (msgLenOf cfg) s.file s.clock b.packets s.comp).pktFound = true :=
        (packetLoop_found_iff fl.single fc (msgLenOf cfg) s.file s.clock b.packets s.comp).mpr hacc
      have hc' : (packetLoop fl.single fc (msgLenOf cfg) s.file s.clock b.packets s.comp).comp = ∅ := by
        rw [hs]
        rw [packetLoop_comp_single fc (msgLenOf cfg) s.file s.clock b.packets s.comp]
        rw [← hs, hc]
        exact Finset.empty_sdiff _
      exact ⟨stepState (processBlock fl fc cfg b s), by
        rw [processBlock_eq, if_pos ⟨hf, hs, hc'⟩]; rfl⟩
    · intro hrej
      have hnotf : ¬ (packetLoop fl.single fc (msgLenOf cfg) s.file s.clock b.packets s.comp).pktFound = true := by
        rw [packetLoop_found_iff fl.single fc (msgLenOf cfg) s.file s.clock b.packets s.comp]
        rintro ⟨pkt, hmem, hfc⟩
        rw [hrej pkt hmem] at hfc
        exact Bool.noConfusion hfc
      have hnf : (packetLoop fl.single fc (msgLenOf cfg) s.file s.clock b.packets s.comp).pktFound = false := by
        cases hb : (packetLoop fl.single fc (msgLenOf cfg) s.file s.clock b.packets s.comp).pktFound
        · rfl
        · exact absurd hb hnotf
      rcases packetLoop_not_found fl.single fc (msgLenOf cfg) s.file s.clock b.packets s.comp hnf with ⟨hcm, hev⟩
      refine ⟨stepState (processBlock fl fc cfg b s), ?_, ?_, ?_, ?_⟩
      · rw [processBlock_eq, if_neg (by rintro ⟨hf, _, _⟩; exact hnotf hf)]
        rfl
      · rw [stepState_processBlock]
        simp [hev, eventMessages]
      · rw [stepState_processBlock]
        simp [hnotf]
      · rw [stepState_processBlock]
        dsimp only
        rw [hcm]
        exact hc

/-- C1, witness: a concrete single-shot run with Completion Set `{1, 2}`
and a block carrying packets 1 and 2 stops with `CompletionSetEmpty`; and a
concrete single-shot step from an empty Completion Set on a block with an
accepted packet returns with `CompletionSetEmpty`. -/
theorem C1_single_shot_amended_witness :
    (∃ sf, looperRun ⟨true, "samples.bin"⟩ (fun _ => true) ⟨1⟩
        [⟨[⟨1⟩, ⟨2⟩], [0, 0]⟩] (initState {1, 2}) =
      RunRes.stopped sf StopReason.completionSetEmpty) ∧
    (∃ sf, processBlock ⟨true, "samples.bin"⟩ (fun _ => true) ⟨1⟩
        ⟨[⟨7⟩], [0, 0]⟩ (initState ∅) =
      StepRes.stop sf StopReason.completionSetEmpty) :=
  ⟨C1_single_shot_amended.1 ⟨true, "samples.bin"⟩ (fun _ => true) ⟨1⟩
      [⟨[⟨1⟩, ⟨2⟩], [0, 0]⟩] 1 2 rfl (by decide) (by decide),
   (C1_single_shot_amended.2 ⟨true, "samples.bin"⟩ (fun _ => true) ⟨1⟩
      ⟨[⟨7⟩], [0, 0]⟩ (initState ∅) rfl rfl).1 (by decide)⟩

/-- C1, counterexample to the claim as stated: with an initially empty
Completion Set, enabling single-shot mode does change the pipeline's
termination — on a one-block stream with one accepted packet the
single-shot pipeline has returned while the non-single-shot pipeline is
still running. -/
theorem C1_counterexample :
    isStoppedRes (looperRun ⟨true, "samples.bin"⟩ (fun _ => true) ⟨1⟩
      [⟨[⟨7⟩], [0, 0]⟩] (initState ∅)) = true ∧
    isStoppedRes (looperRun ⟨false, "samples.bin"⟩ (fun _ => true) ⟨1⟩
      [⟨[⟨7⟩], [0, 0]⟩] (initState ∅)) = false := by
  constructor <;> rfl

/-- The messages one iteration appends to the log are exactly the per-packet
loop's encodes. -/
theorem newLog_processBlock (fl : Flags) (fc : Packet → Bool) (cfg : Cfg)
    (b : Block) (s : LoopState) :
    newLog s (processBlock fl fc cfg b s) =
      eventMessages (packetLoop fl.single fc (msgLenOf cfg) s.file s.clock b.packets s.comp).events := by
  rw [newLog, stepState_processBlock]
  simp [List.drop_left]

/-- C5 (amended): every LogMessage created for an accepted packet has Time
equal to the current time, Offset equal to the current write position of
the raw-capture file, and Length equal to twice the parser's configured
buffer length (`BufferLength << 1`, the byte count of the sample window,
two bytes per sample); its Message is a packet of the block that passed the
filter chain. -/
theorem C5_logmessage_fields (fl : Flags) (fc : Packet → Bool) (cfg : Cfg)
    (b : Block) (s : LoopState) (m : LogMessage) :
    m ∈ newLog s (processBlock fl fc cfg b s) →
    m.time = s.clock ∧ m.offset = s.file.length ∧
      m.length = Nat.shiftLeft cfg.bufferLength 1 ∧
      m.message ∈ b.packets ∧ fc m.message = true := by
  intro h
  rw [newLog_processBlock] at h
  exact packetLoop_messages fl.single fc (msgLenOf cfg) s.file s.clock b.packets s.comp m h

/-- C5, witness: the concrete message logged from a one-packet block starts
at clock 0, offset 0, and has length 2 for configured buffer length 1. -/
theorem C5_logmessage_fields_witness :
    (⟨0, 0, 2, ⟨5⟩⟩ : LogMessage) ∈ newLog (initState ∅)
        (processBlock ⟨false, "samples.bin"⟩ (fun _ => true) ⟨1⟩ ⟨[⟨5⟩], [9, 9]⟩ (initState ∅)) ∧
    ((⟨0, 0, 2, ⟨5⟩⟩ : LogMessage).time = (initState ∅).clock ∧
      (⟨0, 0, 2, ⟨5⟩⟩ : LogMessage).offset = (initState ∅).file.length ∧
      (⟨0, 0, 2, ⟨5⟩⟩ : LogMessage).length = Nat.shiftLeft (Cfg.mk 1).bufferLength 1 ∧
      (⟨0, 0, 2, ⟨5⟩⟩ : LogMessage).message ∈ (Block.mk [⟨5⟩] [9, 9]).packets ∧
      (fun _ => true) (⟨0, 0, 2, ⟨5⟩⟩ : LogMessage).message = true) :=
  ⟨by decide,
   C5_logmessage_fields ⟨false, "samples.bin"⟩ (fun _ => true) ⟨1⟩ ⟨[⟨5⟩], [9, 9]⟩
     (initState ∅) ⟨0, 0, 2, ⟨5⟩⟩ (by decide)⟩

/-- C5, counterexample to the claim as stated: with configured buffer
length 3, the logged message's Length is 6 (the shift doubles it), not the
configured buffer length 3. -/
theorem C5_counterexample :
    (stepState (processBlock ⟨false, "samples.bin"⟩ (fun _ => true) ⟨3⟩
        ⟨[⟨5⟩], [1, 1, 1, 1, 1, 1]⟩ (initState ∅))).log = [⟨0, 0, 6, ⟨5⟩⟩] ∧
    (Cfg.mk 3).bufferLength = 3 ∧
    decide ((6 : Nat) = (Cfg.mk 3).bufferLength) = false := by
  refine ⟨rfl, rfl, rfl⟩

/-- C8: after an iteration, sample bytes are appended to the raw-capture
file exactly when some packet of the block passed the Filter Chain and the
capture target is not the discard device; a block with no accepted packet,
or capture directed at the discard target, leaves the file unchanged. -/
theorem C8_capture_write_iff (fl : Flags) (fc : Packet → Bool) (cfg : Cfg)
    (b : Block) (s : LoopState) :
    (((∀ pkt ∈ b.packets, fc pkt = false) ∨ fl.sampleFilename = osDevNull) →
      (stepState (processBlock fl fc cfg b s)).file = s.file) ∧
    ((∃ pkt ∈ b.packets, fc pkt = true) → fl.sampleFilename ≠ osDevNull →
      (stepState (processBlock fl fc cfg b s)).file = s.file ++ b.iq) := by
  constructor
  · intro h
    rw [stepState_processBlock]
    rcases h with h | h
    · have hnotf : ¬ (packetLoop fl.single fc (msgLenOf cfg) s.file s.clock b.packets s.comp).pktFound = true := by
        rw [packetLoop_found_iff]
        rintro ⟨p, hp, hfp⟩
        rw [h p hp] at hfp
        exact Bool.noConfusion hfp
      simp [hnotf]
    · simp [h]
  · intro hacc hne
    rw [stepState_processBlock]
    have hf : (packetLoop fl.single fc (msgLenOf cfg) s.file s.clock b.packets s.comp).pktFound = true :=
      (packetLoop_found_iff fl.single fc (msgLenOf cfg) s.file s.clock b.packets s.comp).mpr hacc
    simp [hf, hne]

/-- C8, witness: writing to the discard device leaves the capture file
unchanged even though a packet was accepted, and with a real capture target
an accepted packet appends exactly the block's IQ window. -/
theorem C8_capture_write_iff_witness :
    ((stepState (processBlock ⟨false, "/dev/null"⟩ (fun _ => true) ⟨1⟩
        ⟨[⟨5⟩], [7, 7]⟩ (initState ∅))).file = (initState ∅).file) ∧
    ((stepState (processBlock ⟨false, "samples.bin"⟩ (fun _ => true) ⟨1⟩
        ⟨[⟨5⟩], [7, 7]⟩ (initState ∅))).file = (initState ∅).file ++ [7, 7]) :=
  ⟨(C8_capture_write_iff ⟨false, "/dev/null"⟩ (fun _ => true) ⟨1⟩
      ⟨[⟨5⟩], [7, 7]⟩ (initState ∅)).1 (Or.inr rfl),
   (C8_capture_write_iff ⟨false, "samples.bin"⟩ (fun _ => true) ⟨1⟩
      ⟨[⟨5⟩], [7, 7]⟩ (initState ∅)).2 (by decide) (by decide)⟩

/-- C10: within one iteration, every LogMessage produced from the block
records the identical Offset (the capture-file position before any write),
and the capture-file write happens at most once, as the last sink event of
the block — after every one of the block's accepted packets has been
encoded. -/
theorem C10_block_offsets_single_write (fl : Flags) (fc : Packet → Bool)
    (cfg : Cfg) (b : Block) (s : LoopState) :
    ∃ (msgs : List LogMessage) (ws : List Event),
      blockEvents fl fc cfg b s = msgs.map Event.encode ++ ws ∧
      (ws = [] ∨ ws = [Event.write b.iq]) ∧
      (∀ m ∈ msgs, m.offset = s.file.length) := by
  have henc := packetLoop_events_encodes fl.single fc (msgLenOf cfg) s.file s.clock b.packets s.comp
  have hmsg : ∀ m ∈ eventMessages (packetLoop fl.single fc (msgLenOf cfg) s.file s.clock b.packets s.comp).events,
      m.offset = s.file.length :=
    fun m hm => (packetLoop_messages fl.single fc (msgLenOf cfg) s.file s.clock b.packets s.comp m hm).2.1
  by_cases hf : (packetLoop fl.single fc (msgLenOf cfg) s.file s.clock b.packets s.comp).pktFound = true
  · by_cases hw : fl.sampleFilename = osDevNull
    · refine ⟨eventMessages (packetLoop fl.single fc (msgLenOf cfg) s.file s.clock b.packets s.comp).events,
        [], ?_, Or.inl rfl, hmsg⟩
      rw [List.append_nil, ← henc]
      simp [blockEvents, hf, hw]
    · refine ⟨eventMessages (packetLoop fl.single fc (msgLenOf cfg) s.file s.clock b.packets s.comp).events,
        [Event.write b.iq], ?_, Or.inr rfl, hmsg⟩
      rw [← henc]
      simp [blockEvents, hf, hw]
  · refine ⟨eventMessages (packetLoop fl.single fc (msgLenOf cfg) s.file s.clock b.packets s.comp).events,
      [], ?_, Or.inl rfl, hmsg⟩
    rw [List.append_nil, ← henc]
    simp [blockEvents, hf]

/-- A slice wholly inside the existing file is unchanged by appending. -/
theorem slice_append_of_le (l t : List Nat) (o n : Nat) (h : o + n ≤ l.length) :
    ((l ++ t).drop o).take n = (l.drop o).take n := by
  rw [List.drop_append_of_le_length (by omega)]
  rw [List.take_append_of_le_length]
  rw [List.length_drop]
  omega

/-- Invariant preservation for one iteration with capture enabled: every
logged message's seek range lies inside the capture file and recovers the
IQ window of a block whose packet it logs. -/
theorem capture_inv_step (fl : Flags) (fc : Packet → Bool) (cfg : Cfg)
    (hcap : fl.sampleFilename ≠ osDevNull) (A : List Block) (b : Block)
    (hbA : b ∈ A) (hlen : b.iq.length = msgLenOf cfg) (s : LoopState)
    (hinv : ∀ m ∈ s.log, m.offset + m.length ≤ s.file.length ∧
      ∃ bb ∈ A, m.message ∈ bb.packets ∧ (s.file.drop m.offset).take m.length = bb.iq) :
    ∀ m ∈ (stepState (processBlock fl fc cfg b s)).log,
      m.offset + m.length ≤ (stepState (processBlock fl fc cfg b s)).file.length ∧
      ∃ bb ∈ A, m.message ∈ bb.packets ∧
        (((stepState (processBlock fl fc cfg b s)).file.drop m.offset).take m.length = bb.iq) := by
  intro m hm
  rw [stepState_processBlock] at hm ⊢
  simp only [List.mem_append] at hm
  rcases hm with hm | hm
  · rcases hinv m hm with ⟨hb, bb, hbb, hmem, hslice⟩
    refine ⟨by simp; omega, bb, hbb, hmem, ?_⟩
    rw [slice_append_of_le _ _ _ _ hb]
    exact hslice
  · rcases packetLoop_messages fl.single fc (msgLenOf cfg) s.file s.clock b.packets s.comp m hm
      with ⟨htime, hoff, hlenm, hmemb, hfc⟩
    have hf : (packetLoop fl.single fc (msgLenOf cfg) s.file s.clock b.packets s.comp).pktFound = true :=
      (packetLoop_found_iff fl.single fc (msgLenOf cfg) s.file s.clock b.packets s.comp).mpr
        ⟨m.message, hmemb, hfc⟩
    have hifp : (if (packetLoop fl.single fc (msgLenOf cfg) s.file s.clock b.packets s.comp).pktFound = true ∧
        fl.sampleFilename ≠ osDevNull then b.iq else []) = b.iq := if_pos ⟨hf, hcap⟩
    rw [hifp]
    refine ⟨?_, b, hbA, hmemb, ?_⟩
    · rw [hoff, hlenm, List.length_append, ← hlen]
    · rw [hoff, List.drop_left, hlenm, ← hlen, List.take_length]

/-- Invariant for the whole run, capture enabled. -/
theorem capture_inv_run (fl : Flags) (fc : Packet → Bool) (cfg : Cfg)
    (hcap : fl.sampleFilename ≠ osDevNull) (A : List Block) :
    ∀ (bs : List Block), (∀ b ∈ bs, b ∈ A ∧ b.iq.length = msgLenOf cfg) →
    ∀ (s : LoopState),
      (∀ m ∈ s.log, m.offset + m.length ≤ s.file.length ∧
        ∃ bb ∈ A, m.message ∈ bb.packets ∧ (s.file.drop m.offset).take m.length = bb.iq) →
      ∀ m ∈ (runState (looperRun fl fc cfg bs s)).log,
        m.offset + m.length ≤ (runState (looperRun fl fc cfg bs s)).file.length ∧
        ∃ bb ∈ A, m.message ∈ bb.packets ∧
          (((runState (looperRun fl fc cfg bs s)).file.drop m.offset).take m.length = bb.iq) := by
  intro bs
  induction bs with
  | nil =>
    intro _ s hinv
    simpa [looperRun, runState] using hinv
  | cons b bs ih =>
    intro hbs s hinv
    rw [looperRun_cons]
    have hstep := capture_inv_step fl fc cfg hcap A b (hbs b (List.mem_cons_self _ _)).1
      (hbs b (List.mem_cons_self _ _)).2 s hinv
    cases hpb : processBlock fl fc cfg b s with
    | stop s' r0 =>
      rw [hpb] at hstep
      simpa [runState] using hstep
    | cont s' =>
      rw [hpb] at hstep
      exact ih (fun bb hbb => hbs bb (List.mem_cons_of_mem _ hbb)) s' hstep

/-- C6: in a run with capture enabled (and each block's IQ window of the
configured message length), every logged message's Offset/Length pair is a
valid seek range into the final capture file, and reading Length bytes at
Offset recovers the IQ window of a block whose accepted packet the message
logs; within one iteration, Offset is the capture-file position before the
block's bytes are appended — captured before the write, never after. -/
theorem C6_offset_correlation (fl : Flags) (fc : Packet → Bool) (cfg : Cfg)
    (bs : List Block) (comp0 : Finset Nat) (m : LogMessage) :
    fl.sampleFilename ≠ osDevNull →
    (∀ b ∈ bs, b.iq.length = msgLenOf cfg) →
    (m ∈ (runState (looperRun fl fc cfg bs (initState comp0))).log →
      m.offset + m.length ≤ (runState (looperRun fl fc cfg bs (initState comp0))).file.length ∧
      ∃ b ∈ bs, m.message ∈ b.packets ∧
        (((runState (looperRun fl fc cfg bs (initState comp0))).file.drop m.offset).take m.length = b.iq)) ∧
    (∀ (b : Block) (s : LoopState), m ∈ newLog s (processBlock fl fc cfg b s) →
      m.offset = s.file.length) := by
  intro hcap hlen
  constructor
  · intro hm
    exact capture_inv_run fl fc cfg hcap bs bs (fun b hb => ⟨hb, hlen b hb⟩)
      (initState comp0) (by simp [initState]) m hm
  · intro b s hm
    exact (C5_logmessage_fields fl fc cfg b s m hm).2.1

/-- C6, witness: in a one-block capture-enabled run, the logged message's
seek range (offset 0, length 2) recovers the block's IQ window `[9, 8]`
from the final capture file. -/
theorem C6_offset_correlation_witness :
    (⟨0, 0, 2, ⟨5⟩⟩ : LogMessage).offset + (⟨0, 0, 2, ⟨5⟩⟩ : LogMessage).length ≤
      (runState (looperRun ⟨false, "samples.bin"⟩ (fun _ => true) ⟨1⟩
        [(⟨[⟨5⟩], [9, 8]⟩ : Block)] (initState ∅))).file.length ∧
    ∃ b ∈ [(⟨[⟨5⟩], [9, 8]⟩ : Block)], (⟨0, 0, 2, ⟨5⟩⟩ : LogMessage).message ∈ b.packets ∧
      ((((runState (looperRun ⟨false, "samples.bin"⟩ (fun _ => true) ⟨1⟩
        [(⟨[⟨5⟩], [9, 8]⟩ : Block)] (initState ∅))).file.drop 0).take 2) = b.iq) :=
  (C6_offset_correlation ⟨false, "samples.bin"⟩ (fun _ => true) ⟨1⟩
    [(⟨[⟨5⟩], [9, 8]⟩ : Block)] ∅ ⟨0, 0, 2, ⟨5⟩⟩ (by decide) (by decide)).1 (by decide)

/-- With no injected `Encode` failure the fallible per-packet loop agrees
with the pure one. -/
theorem packetLoopE_ok (single : Bool) (fc : Packet → Bool) (msgLen : Nat)
    (file : List Nat) (clock : Nat) :
    ∀ (pkts : List Packet) (comp : Finset Nat) (i : Nat),
      packetLoopE single fc msgLen file clock (fun _ => none) pkts comp i =
        Except.ok (packetLoop single fc msgLen file clock pkts comp) := by
  intro pkts
  induction pkts with
  | nil => intro comp i; rfl
  | cons pkt rest ih =>
    intro comp i
    by_cases hfc : fc pkt
    · cases single with
      | false => simp [packetLoopE, packetLoop, hfc, ih]
      | true =>
        by_cases hc : comp = ∅
        · simp [packetLoopE, packetLoop, hfc, hc]
        · simp [packetLoopE, packetLoop, hfc, hc, ih]
    · simp [packetLoopE, packetLoop, hfc, ih]

/-- C7: a failed or short conduit read, an `Encode` error, and a
capture-write error each make the iteration process-fatal (`log.Fatal`),
and the loop never proceeds to the next iteration on a failed read. -/
theorem C7_fatal_errors (fl : Flags) (fc : Packet → Bool) (cfg : Cfg)
    (o : ErrOracle) (b : Block) (s : LoopState) :
    (∀ e, o.readErr = some e →
      processBlockE fl fc cfg o b s = IterRes.fatal (FatalKind.readSamples e)) ∧
    (∀ e, o.readErr = some e → ∀ s',
      processBlockE fl fc cfg o b s ≠ IterRes.cont s') ∧
    (o.readErr = none → ∀ e,
      packetLoopE fl.single fc (msgLenOf cfg) s.file s.clock o.encodeErr b.packets s.comp 0 =
        Except.error e →
      processBlockE fl fc cfg o b s = IterRes.fatal (FatalKind.encodeMessage e)) ∧
    (o.readErr = none → ∀ r,
      packetLoopE fl.single fc (msgLenOf cfg) s.file s.clock o.encodeErr b.packets s.comp 0 =
        Except.ok r →
      r.pktFound = true → fl.sampleFilename ≠ osDevNull →
      ∀ e, o.writeErr = some e →
      processBlockE fl fc cfg o b s = IterRes.fatal (FatalKind.writeSamples e)) := by
  refine ⟨?_, ?_, ?_, ?_⟩
  · intro e he
    simp [processBlockE, he]
  · intro e he s'
    simp [processBlockE, he]
  · intro hnone e hloop
    simp [processBlockE, hnone, hloop]
  · intro hnone r hloop hf hcap e he
    simp [processBlockE, hnone, hloop, hf, hcap, he]

/-- C7, witness: at concrete inputs, a read error, an `Encode` error, and a
capture-write error each produce the corresponding process-fatal result. -/
theorem C7_fatal_errors_witness :
    (processBlockE ⟨false, "samples.bin"⟩ (fun _ => true) ⟨1⟩
        ⟨some "unexpected EOF", fun _ => none, none⟩ ⟨[⟨5⟩], [9, 9]⟩ (initState ∅) =
      IterRes.fatal (FatalKind.readSamples "unexpected EOF")) ∧
    (processBlockE ⟨false, "samples.bin"⟩ (fun _ => true) ⟨1⟩
        ⟨none, fun _ => some "encoder failure", none⟩ ⟨[⟨5⟩], [9, 9]⟩ (initState ∅) =
      IterRes.fatal (FatalKind.encodeMessage "encoder failure")) ∧
    (processBlockE ⟨false, "samples.bin"⟩ (fun _ => true) ⟨1⟩
        ⟨none, fun _ => none, some "disk full"⟩ ⟨[⟨5⟩], [9, 9]⟩ (initState ∅) =
      IterRes.fatal (FatalKind.writeSamples "disk full")) :=
  ⟨(C7_fatal_errors ⟨false, "samples.bin"⟩ (fun _ => true) ⟨1⟩
      ⟨some "unexpected EOF", fun _ => none, none⟩ ⟨[⟨5⟩], [9, 9]⟩ (initState ∅)).1
      "unexpected EOF" rfl,
   (C7_fatal_errors ⟨false, "samples.bin"⟩ (fun _ => true) ⟨1⟩
      ⟨none, fun _ => some "encoder failure", none⟩ ⟨[⟨5⟩], [9, 9]⟩ (initState ∅)).2.2.1
      rfl "encoder failure" rfl,
   (C7_fatal_errors ⟨false, "samples.bin"⟩ (fun _ => true) ⟨1⟩
      ⟨none, fun _ => none, some "disk full"⟩ ⟨[⟨5⟩], [9, 9]⟩ (initState ∅)).2.2.2
      rfl ⟨[Event.encode ⟨0, 0, 2, ⟨5⟩⟩], ∅, true⟩ rfl rfl (by decide) "disk full" rfl⟩

/-- C2 fails on the code: the `looper` closure performs no WaitGroup
operation, so after every spawned pipeline loop has returned the WaitGroup
counter still holds 1 (single-protocol) or 2 (dual-protocol) and
`wg.Wait()` never unblocks — `Receiver.Run` does not return. -/
theorem C2_wait_never_unblocks :
    looperWgOps = [] ∧
    wgCount (runWgOps false) = 1 ∧ wgWaitUnblocks (runWgOps false) = false ∧
    wgCount (runWgOps true) = 2 ∧ wgWaitUnblocks (runWgOps true) = false :=
  ⟨rfl, rfl, rfl, rfl, rfl⟩

/-- C3 fails on the code: the splitter goroutine never emits a close on
either conduit — in particular, on a source read error it returns without
closing them — so a pipeline blocked in `io.ReadFull` waiting for one more
byte is never released. -/
theorem C3_no_close_on_source_error :
    (∀ (dual : Bool) (src : List SrcEvent), closeEvents (splitter dual src) = []) ∧
    splitter false [SrcEvent.readErr "connection reset"] = [] ∧
    readerReleased 1 (splitter false [SrcEvent.readErr "connection reset"]) = false := by
  refine ⟨?_, rfl, rfl⟩
  intro dual src
  induction src with
  | nil => rfl
  | cons e rest ih =>
    cases e with
    | chunk bs =>
      cases dual <;> simp [splitter, closeEvents, List.filter_append] at ih ⊢ <;> exact ih
    | readErr e => rfl

/-- C4 (amended): the core emits a record separator after each `Encode`
exactly when the encoder is concretely the XML encoder — a hard-coded type
test (recv.go:187), insensitive to any capability the encoder carries. -/
theorem C4_separator_amended :
    ∀ (d : Bool),
      separatorAfterEncode ⟨EncoderKind.xml, d⟩ = true ∧
      separatorAfterEncode ⟨EncoderKind.json, d⟩ = false ∧
      separatorAfterEncode ⟨EncoderKind.csv, d⟩ = false ∧
      separatorAfterEncode ⟨EncoderKind.gob, d⟩ = false := by
  intro d
  exact ⟨rfl, rfl, rfl, rfl⟩

/-- C4, counterexample to the claim as stated: for an encoder whose format
does not natively delimit records but is not the XML encoder, the core
emits no separator, though the capability-query rule the claim states
demands one — the decision is hard-coded per format, not a capability
query. -/
theorem C4_counterexample :
    separatorAfterEncode ⟨EncoderKind.json, false⟩ = false ∧
    separatorPerSpec ⟨EncoderKind.json, false⟩ = true :=
  ⟨rfl, rfl⟩

/-- C9: for every successfully constructed configuration whose message type
is not the combined `scm+idm` mode, no secondary parser is selected, exactly
one Decode Pipeline task is spawned, and the secondary conduit is never
written to. -/
theorem C9_single_protocol (mt : String) (r : ReceiverCfg) :
    newReceiver mt = some r → lowerString mt ≠ "scm+idm" →
    r.q = none ∧ pipelinesSpawned r = 1 ∧
      ∀ chunks, secondaryConduitWrites r chunks = [] := by
  intro h hne
  unfold newReceiver at h
  split at h
  · injection h with h1
    subst h1
    exact ⟨rfl, rfl, fun chunks => rfl⟩
  · injection h with h1
    subst h1
    exact ⟨rfl, rfl, fun chunks => rfl⟩
  · rename_i heq
    exact absurd heq hne
  · injection h with h1
    subst h1
    exact ⟨rfl, rfl, fun chunks => rfl⟩
  · exact Option.noConfusion h

/-- C9, witness: the (case-insensitive) `SCM` configuration selects no
secondary parser, spawns one pipeline, and writes nothing to the secondary
conduit. -/
theorem C9_single_protocol_witness :
    (⟨ParserKind.scm, none⟩ : ReceiverCfg).q = none ∧
    pipelinesSpawned ⟨ParserKind.scm, none⟩ = 1 ∧
    secondaryConduitWrites ⟨ParserKind.scm, none⟩ [[1, 2], [3]] = [] :=
  ⟨(C9_single_protocol "SCM" ⟨ParserKind.scm, none⟩ (by decide) (by decide)).1,
   (C9_single_protocol "SCM" ⟨ParserKind.scm, none⟩ (by decide) (by decide)).2.1,
   (C9_single_protocol "SCM" ⟨ParserKind.scm, none⟩ (by decide) (by decide)).2.2 [[1, 2], [3]]⟩
